import Mathlib

set_option maxRecDepth 100000

/-!
Verification of the masternode / staking core of the `n8n-nodes-xdc`
integration package.

The development shallowly embeds the relevant source functions:

* `src/nodes/Xdc/transport/explorerApi.ts` — `calculateEstimatedRewards`,
  `getEpochInfo` / `getCurrentEpoch`, the validator-set truncation and the
  masternode status derivation in `getMasternodeInfo`;
* `src/nodes/Xdc/utils/addressUtils.ts` — `toXdcAddress`, `toEthAddress`,
  `addressesEqual`;
* `src/nodes/Xdc/utils/unitConverter.ts` — `toWei` (via the semantics of
  `ethers.parseUnits`, the library function it delegates to).

The TypeScript code performs part of its arithmetic on JavaScript `number`
values (IEEE-754 binary64).  To keep every computation executable by the
kernel, doubles are modelled as dyadic pairs `FP = m·2^k` with exact
round-to-nearest-even implemented over `Nat`/`Int`; `ℚ` appears only in
specification-level statements.  The model is ideal binary64: no overflow,
no subnormal underflow — faithful within the magnitude ranges exercised
here (all values lie far inside the finite double range).
-/

/-! ### IEEE-754 binary64 model (dyadic, executable) -/

/-- Fuel-driven base-2 logarithm on `Nat`: `log2fuel fuel n` is
`⌊log₂ n⌋` whenever the fuel is at least the number of halvings
(in particular whenever `n ≤ fuel`), and `0` for `n = 0`. -/
def log2fuel : Nat → Nat → Nat
  | 0, _ => 0
  | fuel + 1, n => if 2 ≤ n then log2fuel fuel (n / 2) + 1 else 0

/-- `⌊log₂ n⌋` (with `natLog2 0 = 0`): the fuel `n` always suffices. -/
def natLog2 (n : Nat) : Nat := log2fuel n n

/-- `⌊log₂ (n / d)⌋` for a positive rational given as a fraction of
naturals `n ≥ 1`, `d ≥ 1`. -/
def fracLog2 (n d : Nat) : Int :=
  if d ≤ n then (natLog2 (n / d) : Int)
  else if d ≤ n * 2 ^ natLog2 (d / n) then -(natLog2 (d / n) : Int)
  else -(natLog2 (d / n) : Int) - 1

/-- Round `p / q` (with `q > 0`) to the nearest natural, ties to even. -/
def divRoundHalfEven (p q : Nat) : Nat :=
  if 2 * (p % q) < q then p / q
  else if q < 2 * (p % q) then p / q + 1
  else if (p / q) % 2 = 0 then p / q else p / q + 1

/-- Round the positive fraction `n / d` to 53 significant bits:
returns `(m, k)` with `m · 2^k` the binary64 value nearest `n / d`
(ties to even), `m` being the scaled 53-bit significand. -/
def roundMantissa (n d : Nat) : Nat × Int :=
  if fracLog2 n d ≤ 52 then
    (divRoundHalfEven (n * 2 ^ ((52 : Int) - fracLog2 n d).toNat) d, fracLog2 n d - 52)
  else
    (divRoundHalfEven n (d * 2 ^ (fracLog2 n d - 52).toNat), fracLog2 n d - 52)

/-- A binary64 value, represented exactly as `m · 2^k`. -/
structure FP where
  m : Int
  k : Int
deriving DecidableEq

/-- The binary64 value nearest to `a / b` (`b ≠ 0`), ties to even. -/
def fpOfFrac (a b : Int) : FP :=
  let a' := if b < 0 then -a else a
  let b' := if b < 0 then -b else b
  if a' = 0 then ⟨0, 0⟩
  else if 0 < a' then
    ⟨((roundMantissa a'.toNat b'.toNat).1 : Int), (roundMantissa a'.toNat b'.toNat).2⟩
  else
    ⟨-((roundMantissa (-a').toNat b'.toNat).1 : Int), (roundMantissa (-a').toNat b'.toNat).2⟩

/-- The binary64 value nearest to `(a · 2^k) / b`. -/
def fpScaled (a : Int) (k : Int) (b : Int) : FP :=
  if 0 ≤ k then fpOfFrac (a * 2 ^ k.toNat) b else fpOfFrac a (b * 2 ^ (-k).toNat)

/-- JavaScript `Number(x)` for an exact integer `x` (BigInt conversion or an
integer literal): the nearest binary64 value. -/
def jsNumber (n : Int) : FP := fpOfFrac n 1

/-- JavaScript `x / y` on doubles: correctly rounded quotient. -/
def fpDiv (x y : FP) : FP := fpScaled x.m (x.k - y.k) y.m

/-- JavaScript `x * y` on doubles: correctly rounded product. -/
def fpMul (x y : FP) : FP := fpScaled (x.m * y.m) (x.k + y.k) 1

/-- JavaScript `x + y` on doubles: correctly rounded sum. -/
def fpAdd (x y : FP) : FP :=
  let k := min x.k y.k
  fpScaled (x.m * 2 ^ (x.k - k).toNat + y.m * 2 ^ (y.k - k).toNat) k 1

/-- JavaScript `x - y` on doubles: negation is exact, then a rounded sum. -/
def fpSub (x y : FP) : FP := fpAdd x ⟨-y.m, y.k⟩

/-- JavaScript `Math.floor` on a double (exact), delivered as an integer
(as `BigInt(Math.floor x)` does in the source). -/
def fpFloor (x : FP) : Int :=
  if 0 ≤ x.k then x.m * 2 ^ x.k.toNat else Int.ediv x.m (2 ^ (-x.k).toNat)

/-- The exact rational value of a binary64 datum (specification side only). -/
def fpToRat (x : FP) : ℚ := (x.m : ℚ) * (2 : ℚ) ^ x.k

/-- Executable test that a binary64 datum is exactly the integer `n`. -/
def fpEqInt (x : FP) (n : Int) : Bool :=
  if 0 ≤ x.k then x.m * 2 ^ x.k.toNat == n else n * 2 ^ (-x.k).toNat == x.m

/-! ### Arithmetic facts about the binary64 model -/

lemma log2fuel_le (fuel : Nat) : ∀ n : Nat, 1 ≤ n → 2 ^ log2fuel fuel n ≤ n := by
  induction fuel with
  | zero => intro n hn; simpa [log2fuel] using hn
  | succ f ih =>
    intro n hn
    rw [log2fuel]
    split
    · next h =>
      have h2 : 1 ≤ n / 2 := by omega
      have hr := ih (n / 2) h2
      calc 2 ^ (log2fuel f (n / 2) + 1) = 2 ^ log2fuel f (n / 2) * 2 := by ring
        _ ≤ (n / 2) * 2 := by omega
        _ ≤ n := by omega
    · simpa using hn

lemma log2fuel_lt (fuel : Nat) : ∀ n : Nat, n ≤ fuel → n < 2 ^ (log2fuel fuel n + 1) := by
  induction fuel with
  | zero => intro n hn; interval_cases n; simp [log2fuel]
  | succ f ih =>
    intro n hn
    rw [log2fuel]
    split
    · next h =>
      have hr := ih (n / 2) (by omega)
      calc n < 2 * (n / 2) + 2 := by omega
        _ ≤ 2 * 2 ^ (log2fuel f (n / 2) + 1) := by omega
        _ = 2 ^ (log2fuel f (n / 2) + 1 + 1) := by ring
    · next h => have : n < 2 := by omega
                simpa using this

lemma natLog2_le {n : Nat} (hn : 1 ≤ n) : 2 ^ natLog2 n ≤ n := log2fuel_le n n hn

lemma natLog2_lt (n : Nat) : n < 2 ^ (natLog2 n + 1) := by
  rcases Nat.eq_zero_or_pos n with h | h
  · subst h; simp [natLog2, log2fuel]
  · exact log2fuel_lt n n le_rfl

/-- Lower-bound half of the logarithm specification, stated multiplicatively:
`2 ^ fracLog2 n d ≤ n / d`. -/
lemma fracLog2_le {n d : Nat} (hn : 1 ≤ n) (hd : 1 ≤ d) :
    d * 2 ^ (fracLog2 n d).toNat ≤ n * 2 ^ (-(fracLog2 n d)).toNat := by
  unfold fracLog2
  split_ifs with hdn hcond
  · have h1 : 1 ≤ n / d := (Nat.one_le_div_iff (by omega)).mpr hdn
    have h2 := natLog2_le h1
    have h3 : n / d * d ≤ n := Nat.div_mul_le_self n d
    have h4 : d * 2 ^ natLog2 (n / d) ≤ d * (n / d) :=
      Nat.mul_le_mul_left d h2
    simp only [Int.toNat_natCast, Int.toNat_neg_nat, pow_zero, mul_one]
    calc d * 2 ^ natLog2 (n / d) ≤ d * (n / d) := h4
      _ = n / d * d := by ring
      _ ≤ n := h3
  · have e1 : (-(-(natLog2 (d / n) : Int))).toNat = natLog2 (d / n) := by omega
    have e2 : ((-(natLog2 (d / n) : Int))).toNat = 0 := by omega
    rw [e1, e2, pow_zero, mul_one]
    exact hcond
  · have hL := natLog2_lt (d / n)
    have e1 : (-(-(natLog2 (d / n) : Int) - 1)).toNat = natLog2 (d / n) + 1 := by omega
    have e2 : ((-(natLog2 (d / n) : Int) - 1)).toNat = 0 := by omega
    rw [e1, e2, pow_zero, mul_one]
    have hdecomp : d < n * (d / n) + n := by
      have := Nat.div_add_mod d n
      have := Nat.mod_lt d (show 0 < n by omega)
      omega
    have hquot : d / n ≤ 2 ^ (natLog2 (d / n) + 1) - 1 := by omega
    have hmul : n * (d / n) ≤ n * (2 ^ (natLog2 (d / n) + 1) - 1) :=
      Nat.mul_le_mul_left n hquot
    have hpow : 1 ≤ 2 ^ (natLog2 (d / n) + 1) := Nat.one_le_two_pow
    have hexp : n * (2 ^ (natLog2 (d / n) + 1) - 1) + n = n * 2 ^ (natLog2 (d / n) + 1) := by
      rw [Nat.mul_sub]
      have hone : n * 1 ≤ n * 2 ^ (natLog2 (d / n) + 1) :=
        Nat.mul_le_mul_left n hpow
      omega
    omega

lemma divRoundHalfEven_one_le {p q : Nat} (hq : 0 < q) (hpq : q ≤ p) :
    1 ≤ divRoundHalfEven p q := by
  have hf : 1 ≤ p / q := (Nat.one_le_div_iff hq).mpr hpq
  unfold divRoundHalfEven
  split_ifs <;> omega

lemma roundMantissa_one_le {n d : Nat} (hn : 1 ≤ n) (hd : 1 ≤ d) :
    1 ≤ (roundMantissa n d).1 := by
  have hmaster := fracLog2_le hn hd
  unfold roundMantissa
  split
  · next he =>
    refine divRoundHalfEven_one_le (by omega) ?_
    rcases le_or_lt 0 (fracLog2 n d) with h0 | h0
    · have e2 : (-(fracLog2 n d)).toNat = 0 := by omega
      rw [e2, pow_zero, mul_one] at hmaster
      have h1 : d ≤ d * 2 ^ (fracLog2 n d).toNat := Nat.le_mul_of_pos_right d (by positivity)
      have h2 : n ≤ n * 2 ^ ((52 : Int) - fracLog2 n d).toNat :=
        Nat.le_mul_of_pos_right n (by positivity)
      omega
    · have e1 : (fracLog2 n d).toNat = 0 := by omega
      rw [e1, pow_zero, mul_one] at hmaster
      have hmono : (-(fracLog2 n d)).toNat ≤ ((52 : Int) - fracLog2 n d).toNat := by omega
      have h2 : n * 2 ^ (-(fracLog2 n d)).toNat ≤ n * 2 ^ ((52 : Int) - fracLog2 n d).toNat :=
        Nat.mul_le_mul_left n (Nat.pow_le_pow_right (by omega) hmono)
      omega
  · next he =>
    refine divRoundHalfEven_one_le (by positivity) ?_
    have h0 : (0 : Int) ≤ fracLog2 n d := by omega
    have e2 : (-(fracLog2 n d)).toNat = 0 := by omega
    rw [e2, pow_zero, mul_one] at hmaster
    have hmono : (fracLog2 n d - 52).toNat ≤ (fracLog2 n d).toNat := by omega
    have h2 : d * 2 ^ (fracLog2 n d - 52).toNat ≤ d * 2 ^ (fracLog2 n d).toNat :=
      Nat.mul_le_mul_left d (Nat.pow_le_pow_right (by omega) hmono)
    omega

lemma fpOfFrac_m_nonneg {a b : Int} (ha : 0 ≤ a) (hb : 0 < b) :
    0 ≤ (fpOfFrac a b).m := by
  unfold fpOfFrac
  simp only [if_neg (not_lt.mpr hb.le)]
  split_ifs with h1 h2
  · simp
  · simp
  · omega

lemma fpOfFrac_m_pos {a b : Int} (ha : 0 < a) (hb : 0 < b) :
    0 < (fpOfFrac a b).m := by
  unfold fpOfFrac
  simp only [if_neg (not_lt.mpr hb.le)]
  rw [if_neg (by omega), if_pos ha]
  have := roundMantissa_one_le (n := a.toNat) (d := b.toNat) (by omega) (by omega)
  simp only
  omega

lemma fpOfFrac_m_neg {a b : Int} (ha : a < 0) (hb : 0 < b) :
    (fpOfFrac a b).m < 0 := by
  unfold fpOfFrac
  simp only [if_neg (not_lt.mpr hb.le)]
  rw [if_neg (by omega), if_neg (by omega)]
  have := roundMantissa_one_le (n := (-a).toNat) (d := b.toNat) (by omega) (by omega)
  simp only
  omega

lemma fpScaled_m_nonneg {a k b : Int} (ha : 0 ≤ a) (hb : 0 < b) :
    0 ≤ (fpScaled a k b).m := by
  unfold fpScaled
  split_ifs
  · exact fpOfFrac_m_nonneg (by positivity) hb
  · exact fpOfFrac_m_nonneg ha (by positivity)

lemma fpScaled_m_pos {a k b : Int} (ha : 0 < a) (hb : 0 < b) :
    0 < (fpScaled a k b).m := by
  unfold fpScaled
  split_ifs
  · exact fpOfFrac_m_pos (by positivity) hb
  · exact fpOfFrac_m_pos ha (by positivity)

lemma fpScaled_m_neg {a k b : Int} (ha : a < 0) (hb : 0 < b) :
    (fpScaled a k b).m < 0 := by
  unfold fpScaled
  split_ifs
  · refine fpOfFrac_m_neg ?_ hb
    have : (0:Int) < 2 ^ k.toNat := by positivity
    exact mul_neg_of_neg_of_pos ha this
  · exact fpOfFrac_m_neg ha (by positivity)

lemma fpFloor_nonneg {x : FP} (hx : 0 ≤ x.m) : 0 ≤ fpFloor x := by
  unfold fpFloor
  split_ifs
  · positivity
  · exact Int.ediv_nonneg hx (by positivity)

lemma fpFloor_neg {x : FP} (hx : x.m < 0) : fpFloor x < 0 := by
  unfold fpFloor
  split_ifs
  · have : (0:Int) < 2 ^ x.k.toNat := by positivity
    exact mul_neg_of_neg_of_pos hx this
  · exact Int.ediv_neg' hx (by positivity)

lemma fpToRat_nonneg {x : FP} (hx : 0 ≤ x.m) : 0 ≤ fpToRat x := by
  unfold fpToRat
  have h2 : (0:ℚ) < (2:ℚ) ^ x.k := zpow_pos (by norm_num) _
  have : (0:ℚ) ≤ (x.m : ℚ) := by exact_mod_cast hx
  positivity

/-- Bridge: the executable integer test decides exact rational value. -/
lemma fpToRat_eq_int {x : FP} {n : Int} (h : fpEqInt x n = true) :
    fpToRat x = (n : ℚ) := by
  unfold fpEqInt at h
  unfold fpToRat
  split_ifs at h with hk
  · simp only [beq_iff_eq] at h
    have hcast : ((x.m : ℚ) * 2 ^ x.k.toNat) = (n : ℚ) := by exact_mod_cast h
    rw [show (x.k : Int) = (x.k.toNat : Int) by omega]
    rw [zpow_natCast]
    exact hcast
  · simp only [beq_iff_eq] at h
    have hcast : ((n : ℚ) * 2 ^ (-x.k).toNat) = (x.m : ℚ) := by exact_mod_cast h
    rw [show (x.k : Int) = -((-x.k).toNat : Int) by omega]
    rw [zpow_neg, zpow_natCast]
    rw [← hcast]
    have hpow : ((2:ℚ) ^ (-x.k).toNat) ≠ 0 := by positivity
    field_simp

/-! ### Reward estimator (`calculateEstimatedRewards`, explorerApi.ts 1045–1075) -/

/-- The record returned by `calculateEstimatedRewards`, at the numeric
level: `daily`, `monthly`, `yearly` are the BigInt wei amounts the source
computes (rendered through `weiToXdc` only for display), `apy` is the
double the source formats with `toFixed(2)`. -/
structure RewardEstimate where
  daily : Int
  monthly : Int
  yearly : Int
  apy : FP
deriving DecidableEq

/-- `ethers.parseEther('0.25')`: the fixed per-block reward in wei. -/
def rewardPerBlock : Int := 250000000000000000

/-- `calculateEstimatedRewards(stakeAmount, totalNetworkStake, blocksPerYear)`:
guard `totalStake === 0n` returns the all-zero record; otherwise
`shareRatio = Number(stake) / Number(totalStake)` (a double division),
`yearlyRewards = BigInt(blocksPerYear) * rewardPerBlock` (exact BigInt),
`userYearlyRewards = BigInt(Math.floor(Number(yearlyRewards) * shareRatio))`,
`dailyRewards = userYearlyRewards / 365n`, `monthlyRewards = … / 12n`
(BigInt division truncates toward zero, `Int.tdiv`), and
`apy = (Number(userYearlyRewards) / Number(stake)) * 100` on doubles. -/
def calculateEstimatedRewards (stakeAmount totalNetworkStake : Int)
    (blocksPerYear : Nat) : RewardEstimate :=
  if totalNetworkStake = 0 then ⟨0, 0, 0, ⟨0, 0⟩⟩
  else
    let shareRatio := fpDiv (jsNumber stakeAmount) (jsNumber totalNetworkStake)
    let yearlyRewards : Int := (blocksPerYear : Int) * rewardPerBlock
    let userYearlyRewards : Int := fpFloor (fpMul (jsNumber yearlyRewards) shareRatio)
    let apy := fpMul (fpDiv (jsNumber userYearlyRewards) (jsNumber stakeAmount)) (jsNumber 100)
    ⟨userYearlyRewards.tdiv 365, userYearlyRewards.tdiv 12, userYearlyRewards, apy⟩

/-! ### Epoch computation (`getEpochInfo` / `getCurrentEpoch`, explorerApi.ts 879–914) -/

/-- `Math.floor(currentBlock / 900)` from `getCurrentEpoch` (and the same
expression with `epochBlocks = 900` in `getEpochInfo`).  The block height
is a JavaScript number, so the division is a double division. -/
def getCurrentEpoch (currentBlock : Int) : Int :=
  fpFloor (fpDiv (jsNumber currentBlock) (jsNumber 900))

/-- `startBlock = epoch * epochBlocks` in `getEpochInfo`. -/
def epochStartBlock (epoch : Int) : FP := fpMul (jsNumber epoch) (jsNumber 900)

/-- `endBlock = startBlock + epochBlocks - 1` in `getEpochInfo`. -/
def epochEndBlock (epoch : Int) : FP :=
  fpSub (fpAdd (epochStartBlock epoch) (jsNumber 900)) (jsNumber 1)

/-! ### Strings: addresses are modelled as lists of characters -/

/-- `String.prototype.toLowerCase` on one character; address strings are
ASCII, where JavaScript lowercasing maps exactly `A`–`Z` (65–90) to
`a`–`z` (97–122). -/
def lowerChar (c : Char) : Char :=
  if 65 ≤ c.toNat ∧ c.toNat ≤ 90 then Char.ofNat (c.toNat + 32) else c

/-- `String.prototype.toLowerCase` on a string. -/
def lowerStr (s : List Char) : List Char := s.map lowerChar

/-- `String.prototype.startsWith`. -/
def listStartsWith (s tag : List Char) : Bool := s.take tag.length == tag

/-- The 3-character tag of format A. -/
def xdcTag : List Char := ['x', 'd', 'c']

/-- The 2-character tag of format B. -/
def ethTag : List Char := ['0', 'x']

/-! ### Address codec (`addressUtils.ts`) -/

/-- The two validation errors thrown by the codec: `'Address is required'`
for a falsy input, `'Invalid address format: …'` otherwise. -/
inductive AddressError where
  | required
  | invalidFormat
deriving DecidableEq

/-- `toXdcAddress(address)` (addressUtils.ts 428–451): lowercase, return
unchanged when the input starts with `xdc`, re-tag when it starts with
`0x`, prepend `xdc` when the input has exactly 40 characters, otherwise
throw. -/
def toXdcAddress (address : List Char) : Except AddressError (List Char) :=
  if address = [] then .error .required
  else if listStartsWith (lowerStr address) xdcTag then .ok (lowerStr address)
  else if listStartsWith (lowerStr address) ethTag then .ok (xdcTag ++ (lowerStr address).drop 2)
  else if (lowerStr address).length = 40 then .ok (xdcTag ++ lowerStr address)
  else .error .invalidFormat

/-- `toEthAddress(address)` (addressUtils.ts 458–481): the symmetric
translation into the `0x` tagging. -/
def toEthAddress (address : List Char) : Except AddressError (List Char) :=
  if address = [] then .error .required
  else if listStartsWith (lowerStr address) ethTag then .ok (lowerStr address)
  else if listStartsWith (lowerStr address) xdcTag then .ok (ethTag ++ (lowerStr address).drop 3)
  else if (lowerStr address).length = 40 then .ok (ethTag ++ lowerStr address)
  else .error .invalidFormat

/-- `addressesEqual(address1, address2)` (addressUtils.ts 545–555): false
on a falsy operand; otherwise compare the lowercased `toEthAddress`
translations, catching any translation error as false. -/
def addressesEqual (address1 address2 : List Char) : Bool :=
  if address1 = [] ∨ address2 = [] then false
  else
    match toEthAddress address1, toEthAddress address2 with
    | .ok e1, .ok e2 => lowerStr e1 == lowerStr e2
    | _, _ => false

/-! ### Validator set and masternode status (explorerApi.ts 700–724, 891–892) -/

/-- `candidates.slice(0, 108)` in `getEpochInfo` (line 892): the validator
set is the positional 108-element truncation of the candidate list. -/
def resolveValidatorSet (candidates : List (List Char)) : List (List Char) :=
  candidates.take 108

/-- The membership expression of `getMasternodeInfo` (lines 712–714):
`candidates.map(a => a.toLowerCase()).slice(0, 108).includes(ethAddress.toLowerCase())`. -/
def isValidatorIn (candidates : List (List Char)) (ethAddress : List Char) : Bool :=
  ((candidates.map lowerStr).take 108).contains (lowerStr ethAddress)

/-- The full test as invoked by `getMasternodeInfo`: the queried address is
first translated with `toEthAddress` (a translation error propagates). -/
def isValidatorOf (candidates : List (List Char)) (address : List Char) :
    Except AddressError Bool :=
  (toEthAddress address).map (fun e => isValidatorIn candidates e)

/-- The three derived lifecycle states of a masternode. -/
inductive MasternodeStatus where
  | resigned
  | active
  | proposed
deriving DecidableEq

/-- `status: !isCandidate ? 'resigned' : isValidator ? 'active' : 'proposed'`
(explorerApi.ts 723). -/
def masternodeStatus (isCandidate isValidator : Bool) : MasternodeStatus :=
  if !isCandidate then .resigned
  else if isValidator then .active
  else .proposed

/-! ### Unit conversion (`toWei`, unitConverter.ts 61–70)

`toWei` delegates to `ethers.parseEther` / `ethers.parseUnits`.  The parser
below embeds the documented semantics of ethers v6
`FixedNumber.fromString(value, {decimals, width: 512})`: the input must
match `^(-?)([0-9]*)\.?([0-9]*)$` with at least one digit, the fraction
may not exceed `decimals` digits, and the scaled signed value must fit in
512 bits. -/

/-- The three rejection reasons of the ethers fixed-point parser:
`invalid FixedNumber string value`, `too many decimals for format`,
`overflow`. -/
inductive AmountError where
  | invalidNumber
  | tooManyDecimals
  | overflow
deriving DecidableEq

/-- `[0-9]`. -/
def isDigitChar (c : Char) : Bool := decide (48 ≤ c.toNat ∧ c.toNat ≤ 57)

/-- Split the part after the optional sign into whole and fractional digit
runs per `([0-9]*)\.?([0-9]*)$`, requiring at least one digit overall. -/
def splitNumericCore (t : List Char) : Option (List Char × List Char) :=
  match t.dropWhile isDigitChar with
  | [] => if t.takeWhile isDigitChar = [] then none else some (t.takeWhile isDigitChar, [])
  | '.' :: frac =>
      if frac.all isDigitChar = true ∧ ¬(t.takeWhile isDigitChar = [] ∧ frac = []) then
        some (t.takeWhile isDigitChar, frac)
      else none
  | _ => none

/-- Match `^(-?)([0-9]*)\.?([0-9]*)$` (with at least one digit): returns
the sign and the two digit runs. -/
def splitNumeric (s : List Char) : Option (Bool × List Char × List Char) :=
  match s with
  | '-' :: t => (splitNumericCore t).map (fun wf => (true, wf.1, wf.2))
  | t => (splitNumericCore t).map (fun wf => (false, wf.1, wf.2))

/-- Decimal digit run to a natural number. -/
def digitsToNat (ds : List Char) : Nat := ds.foldl (fun a c => 10 * a + (c.toNat - 48)) 0

/-- `ethers.parseUnits(value, decimals)` (ethers v6, the dependency `toWei`
delegates to): parse, reject a fraction longer than `decimals`, pad the
fraction, and bound-check the signed 512-bit result. -/
def parseUnits (value : List Char) (decimals : Nat) : Except AmountError Int :=
  match splitNumeric value with
  | none => .error .invalidNumber
  | some (neg, whole, frac) =>
    if decimals < frac.length then .error .tooManyDecimals
    else
      let mag : Int := (digitsToNat (whole ++ (frac ++ List.replicate (decimals - frac.length) '0')) : Int)
      let v : Int := if neg then -mag else mag
      if v < -(2 ^ 511) ∨ (2 : Int) ^ 511 ≤ v then .error .overflow else .ok v

/-- The `UNIT_DECIMALS` table of unitConverter.ts. -/
def UNIT_DECIMALS (unit : List Char) : Option Nat :=
  if unit = ['w','e','i'] then some 0
  else if unit = ['k','w','e','i'] then some 3
  else if unit = ['m','w','e','i'] then some 6
  else if unit = ['g','w','e','i'] then some 9
  else if unit = ['s','z','a','b','o'] then some 12
  else if unit = ['f','i','n','n','e','y'] then some 15
  else if unit = ['x','d','c'] then some 18
  else if unit = ['e','t','h','e','r'] then some 18
  else none

/-- `UNIT_DECIMALS[unitLower] || 18`: JavaScript `||` treats both a missing
key and the stored value `0` (the `wei` entry) as falsy, so both fall back
to 18. -/
def unitDecimalsOrDefault (unit : List Char) : Nat :=
  match UNIT_DECIMALS unit with
  | none => 18
  | some 0 => 18
  | some d => d

/-- `toWei(value, unit)` (unitConverter.ts 61–70): `parseEther` for the
`xdc` unit, otherwise `parseUnits` with the table lookup. -/
def toWei (value unit : List Char) : Except AmountError Int :=
  if lowerStr unit = ['x','d','c'] then parseUnits value 18
  else parseUnits value (unitDecimalsOrDefault (lowerStr unit))

/-! ### Valid payloads and character facts -/

/-- A hexadecimal digit (`0`–`9`, `a`–`f`, `A`–`F`). -/
def isHexDigit (c : Char) : Bool :=
  decide ((48 ≤ c.toNat ∧ c.toNat ≤ 57) ∨ (97 ≤ c.toNat ∧ c.toNat ≤ 102) ∨
    (65 ≤ c.toNat ∧ c.toNat ≤ 70))

/-- A valid 40-hex-character address payload (the spec's notion of the
shared 20-byte identity). -/
def ValidPayload (p : List Char) : Prop :=
  p.length = 40 ∧ ∀ c ∈ p, isHexDigit c = true

instance (p : List Char) : Decidable (ValidPayload p) :=
  inferInstanceAs (Decidable (p.length = 40 ∧ ∀ c ∈ p, isHexDigit c = true))

lemma lowerChar_of_lt {c : Char} (h : c.toNat < 65) : lowerChar c = c :=
  if_neg (by omega)

lemma lowerChar_of_gt {c : Char} (h : 90 < c.toNat) : lowerChar c = c :=
  if_neg (by omega)

lemma lowerChar_toNat_of_upper {c : Char} (h1 : 65 ≤ c.toNat) (h2 : c.toNat ≤ 90) :
    (lowerChar c).toNat = c.toNat + 32 := by
  unfold lowerChar
  rw [if_pos ⟨h1, h2⟩]
  unfold Char.ofNat
  rw [dif_pos (Or.inl (by omega))]
  rfl

lemma lowerChar_hex_range {c : Char} (h : isHexDigit c = true) :
    (48 ≤ (lowerChar c).toNat ∧ (lowerChar c).toNat ≤ 57) ∨
    (97 ≤ (lowerChar c).toNat ∧ (lowerChar c).toNat ≤ 102) := by
  unfold isHexDigit at h
  rw [decide_eq_true_eq] at h
  rcases h with h | h | h
  · rw [lowerChar_of_lt (by omega)]
    exact Or.inl (by omega)
  · rw [lowerChar_of_gt (by omega)]
    exact Or.inr (by omega)
  · rw [lowerChar_toNat_of_upper (by omega) (by omega)]
    exact Or.inr (by omega)

lemma lowerChar_hex_idem {c : Char} (h : isHexDigit c = true) :
    lowerChar (lowerChar c) = lowerChar c := by
  rcases lowerChar_hex_range h with h' | h'
  · exact lowerChar_of_lt (by omega)
  · exact lowerChar_of_gt (by omega)

lemma lowerChar_hex_ne_x {c : Char} (h : isHexDigit c = true) : lowerChar c ≠ 'x' := by
  intro heq
  have : (lowerChar c).toNat = 120 := by rw [heq]; rfl
  rcases lowerChar_hex_range h with h' | h' <;> omega

lemma lowerStr_hex_idem {p : List Char} (hp : ∀ c ∈ p, isHexDigit c = true) :
    lowerStr (lowerStr p) = lowerStr p := by
  unfold lowerStr
  rw [List.map_map]
  exact List.map_congr_left (fun c hc => lowerChar_hex_idem (hp c hc))

lemma lowerStr_length (s : List Char) : (lowerStr s).length = s.length :=
  List.length_map s lowerChar

/-- Lowercasing a concatenation with a concrete lowercase tag. -/
lemma lowerStr_append (s t : List Char) : lowerStr (s ++ t) = lowerStr s ++ lowerStr t :=
  List.map_append lowerChar s t

lemma lowerStr_xdcTag : lowerStr xdcTag = xdcTag := by decide

lemma lowerStr_ethTag : lowerStr ethTag = ethTag := by decide

/-- Any string starts with itself as a tag. -/
lemma listStartsWith_same (tag l : List Char) : listStartsWith (tag ++ l) tag = true := by
  unfold listStartsWith
  rw [List.take_left]
  exact beq_self_eq_true tag

/-- One step of the `startsWith` test. -/
lemma listStartsWith_cons_cons (x y : Char) (s tag : List Char) :
    listStartsWith (x :: s) (y :: tag) = ((x == y) && listStartsWith s tag) := by
  unfold listStartsWith
  rw [List.length_cons, List.take_succ_cons]
  rfl

/-- A lowercased 40-hex payload starts with neither tag (its first two
characters are hex, and `x` is not a hex digit). -/
lemma lowerStr_payload_no_tag {p : List Char} (hp : ValidPayload p) :
    listStartsWith (lowerStr p) xdcTag = false ∧ listStartsWith (lowerStr p) ethTag = false := by
  obtain ⟨hlen, hhex⟩ := hp
  obtain ⟨c0, c1, t, rfl⟩ : ∃ c0 c1 t, p = c0 :: c1 :: t := by
    match p, hlen with
    | c0 :: c1 :: t, _ => exact ⟨c0, c1, t, rfl⟩
  have h0 : (lowerChar c0 == 'x') = false :=
    beq_eq_false_iff_ne.mpr (lowerChar_hex_ne_x (hhex c0 (by simp)))
  have h1 : (lowerChar c1 == 'x') = false :=
    beq_eq_false_iff_ne.mpr (lowerChar_hex_ne_x (hhex c1 (by simp)))
  constructor
  · show listStartsWith (lowerChar c0 :: lowerChar c1 :: lowerStr t) ('x' :: 'd' :: 'c' :: []) = false
    rw [listStartsWith_cons_cons, h0, Bool.false_and]
  · show listStartsWith (lowerChar c0 :: lowerChar c1 :: lowerStr t) ('0' :: 'x' :: []) = false
    rw [listStartsWith_cons_cons, listStartsWith_cons_cons, h1, Bool.false_and, Bool.and_false]

/-- An `xdc`-tagged string does not start with `0x`. -/
lemma xdc_not_eth (l : List Char) : listStartsWith (xdcTag ++ l) ethTag = false := by
  show listStartsWith ('x' :: 'd' :: 'c' :: l) ('0' :: 'x' :: []) = false
  rw [listStartsWith_cons_cons, show (('x' : Char) == '0') = false from by decide, Bool.false_and]

/-- A `0x`-tagged string does not start with `xdc`. -/
lemma eth_not_xdc (l : List Char) : listStartsWith (ethTag ++ l) xdcTag = false := by
  show listStartsWith ('0' :: 'x' :: l) ('x' :: 'd' :: 'c' :: []) = false
  rw [listStartsWith_cons_cons, show (('0' : Char) == 'x') = false from by decide, Bool.false_and]

/-! ### The codec on the three valid operand shapes -/

/-- `toEthAddress` on each of the three accepted shapes of a valid payload:
all three translate to the `0x` tagging of the lowercased payload. -/
lemma toEthAddress_forms {p : List Char} (hp : ValidPayload p) :
    toEthAddress (xdcTag ++ p) = .ok (ethTag ++ lowerStr p)
    ∧ toEthAddress (ethTag ++ p) = .ok (ethTag ++ lowerStr p)
    ∧ toEthAddress p = .ok (ethTag ++ lowerStr p) := by
  have hlow : lowerStr (xdcTag ++ p) = xdcTag ++ lowerStr p := by
    rw [lowerStr_append, lowerStr_xdcTag]
  have hlow2 : lowerStr (ethTag ++ p) = ethTag ++ lowerStr p := by
    rw [lowerStr_append, lowerStr_ethTag]
  have hno := lowerStr_payload_no_tag hp
  refine ⟨?_, ?_, ?_⟩
  · unfold toEthAddress
    rw [if_neg (by simp [xdcTag]), hlow, if_neg (by rw [xdc_not_eth]; exact Bool.false_ne_true),
      if_pos (listStartsWith_same xdcTag (lowerStr p))]
    rw [show (xdcTag ++ lowerStr p).drop 3 = (xdcTag ++ lowerStr p).drop xdcTag.length from rfl,
      List.drop_left]
  · unfold toEthAddress
    rw [if_neg (by simp [ethTag]), hlow2,
      if_pos (listStartsWith_same ethTag (lowerStr p))]
  · unfold toEthAddress
    have hne : p ≠ [] := by
      intro h
      rw [h] at hp
      exact absurd hp.1 (by decide)
    rw [if_neg hne, if_neg (by rw [hno.2]; exact Bool.false_ne_true),
      if_neg (by rw [hno.1]; exact Bool.false_ne_true),
      if_pos (by rw [lowerStr_length]; exact hp.1)]

/-- `toXdcAddress` on each of the three accepted shapes of a valid payload:
all three translate to the `xdc` tagging of the lowercased payload. -/
lemma toXdcAddress_forms {p : List Char} (hp : ValidPayload p) :
    toXdcAddress (xdcTag ++ p) = .ok (xdcTag ++ lowerStr p)
    ∧ toXdcAddress (ethTag ++ p) = .ok (xdcTag ++ lowerStr p)
    ∧ toXdcAddress p = .ok (xdcTag ++ lowerStr p) := by
  have hlow : lowerStr (xdcTag ++ p) = xdcTag ++ lowerStr p := by
    rw [lowerStr_append, lowerStr_xdcTag]
  have hlow2 : lowerStr (ethTag ++ p) = ethTag ++ lowerStr p := by
    rw [lowerStr_append, lowerStr_ethTag]
  have hno := lowerStr_payload_no_tag hp
  refine ⟨?_, ?_, ?_⟩
  · unfold toXdcAddress
    rw [if_neg (by simp [xdcTag]), hlow,
      if_pos (listStartsWith_same xdcTag (lowerStr p))]
  · unfold toXdcAddress
    rw [if_neg (by simp [ethTag]), hlow2, if_neg (by rw [eth_not_xdc]; exact Bool.false_ne_true),
      if_pos (listStartsWith_same ethTag (lowerStr p))]
    rw [show (ethTag ++ lowerStr p).drop 2 = (ethTag ++ lowerStr p).drop ethTag.length from rfl,
      List.drop_left]
  · unfold toXdcAddress
    have hne : p ≠ [] := by
      intro h
      rw [h] at hp
      exact absurd hp.1 (by decide)
    rw [if_neg hne, if_neg (by rw [hno.1]; exact Bool.false_ne_true),
      if_neg (by rw [hno.2]; exact Bool.false_ne_true),
      if_pos (by rw [lowerStr_length]; exact hp.1)]

/-- The lowercased payload is again a valid payload. -/
lemma validPayload_lowerStr {p : List Char} (hp : ValidPayload p) :
    ValidPayload (lowerStr p) := by
  refine ⟨by rw [lowerStr_length]; exact hp.1, ?_⟩
  intro c hc
  rw [lowerStr, List.mem_map] at hc
  obtain ⟨c0, hc0, rfl⟩ := hc
  have h0 := hp.2 c0 hc0
  unfold isHexDigit
  rw [decide_eq_true_eq]
  rcases lowerChar_hex_range h0 with h' | h'
  · exact Or.inl (by omega)
  · exact Or.inr (Or.inl (by omega))

/-! ### Claim theorems -/

/-- C1: the claim states the yearly figure equals the exact integer
`floor((blocksPerYear * rewardPerBlock * stake) / totalNetworkStake)` with
no floating-point step between wei values.  The code computes the share
through binary64 doubles (`Number(stake) / Number(totalStake)` and
`Math.floor(Number(yearlyRewards) * shareRatio)`), and already at the
spec's own scenario (stake 10000, total 1000000000, 15768000 blocks) the
returned yearly wei amount is 39420000000000008192, not the exact
39420000000000000000 (39.42 XDC): the code contradicts the spec's
exact-integer invariant. -/
theorem calculateEstimatedRewards_not_exact_floor :
    (calculateEstimatedRewards 10000 1000000000 15768000).yearly = 39420000000000008192
    ∧ (15768000 * rewardPerBlock * 10000) / 1000000000 = 39420000000000000000
    ∧ (calculateEstimatedRewards 10000 1000000000 15768000).yearly ≠
        (15768000 * rewardPerBlock * 10000) / 1000000000 :=
  ⟨by decide, by decide, by decide⟩

/-- C2: the claim states `epochOf(h) = floor(h / 900)` by exact integer
division for every height.  The code computes `Math.floor(h / 900)` with a
double division: the concrete facts (`epochOf 1850 = 2`,
`rangeOf 2 = [1800, 2699]`) hold, but at the representable height
4611686018427392000 the double quotient rounds up across an integer and
the code returns 5124095576030436 while the exact floor is
5124095576030435 — precisely the precision drift at large heights that the
spec's integer-division requirement exists to rule out. -/
theorem getCurrentEpoch_float_divergence :
    getCurrentEpoch 1850 = 2
    ∧ fpToRat (epochStartBlock 2) = 1800
    ∧ fpToRat (epochEndBlock 2) = 2699
    ∧ getCurrentEpoch 4611686018427392000 = 5124095576030436
    ∧ (4611686018427392000 : Int) / 900 = 5124095576030435
    ∧ getCurrentEpoch 4611686018427392000 ≠ (4611686018427392000 : Int) / 900 :=
  ⟨by decide, fpToRat_eq_int (by decide), fpToRat_eq_int (by decide),
   by decide, by decide, by decide⟩

/-- C5: the derived masternode status is a total, exclusive three-way
classification of the `(isRegisteredCandidate, isValidator)` pair with the
mapping `(false, *) ↦ resigned`, `(true, true) ↦ active`,
`(true, false) ↦ proposed`. -/
theorem masternodeStatus_total_exclusive :
    ∀ c v : Bool,
      (masternodeStatus c v = .resigned ↔ c = false)
      ∧ (masternodeStatus c v = .active ↔ c = true ∧ v = true)
      ∧ (masternodeStatus c v = .proposed ↔ c = true ∧ v = false) := by
  decide

/-- C8 counterexample: the claim states a negative height is rejected
with an `InvalidBlockHeight` error; the code has no validation and returns
the epoch number `Math.floor(-1 / 900) = -1`. -/
theorem getCurrentEpoch_neg_counterexample : getCurrentEpoch (-1) = -1 := by decide

/-- C8 amended: negative heights are not rejected — the epoch calculation
returns the floor of the double quotient, a negative epoch index, for
every negative height. -/
theorem getCurrentEpoch_neg_behavior : ∀ h : Int, h < 0 → getCurrentEpoch h < 0 := by
  intro h hneg
  apply fpFloor_neg
  apply fpScaled_m_neg
  · exact fpOfFrac_m_neg hneg one_pos
  · exact fpOfFrac_m_pos (by norm_num) one_pos

/-- Witness for the C8 amended theorem at height −900. -/
theorem getCurrentEpoch_neg_behavior_witness :
    (-900 : Int) < 0 ∧ getCurrentEpoch (-900) < 0 :=
  ⟨by decide, getCurrentEpoch_neg_behavior (-900) (by decide)⟩

/-- C3: the resolved validator set is the order-preserving 108-element
truncation of the candidate list (`length = min L 108`, and the set
followed by the dropped tail reassembles the list), membership is
containment of the lowercased address in the lowercased truncated
segment — so only the first 108 candidates can ever make it a validator,
independently of any stake — and the test is format-insensitive: an
`xdc`-tagged, `0x`-tagged or bare payload all test identically. -/
theorem validatorSet_spec :
    ∀ (l : List (List Char)) (a p : List Char),
      (resolveValidatorSet l).length = min l.length 108
      ∧ resolveValidatorSet l ++ l.drop 108 = l
      ∧ (isValidatorIn l a = true ↔ lowerStr a ∈ (resolveValidatorSet l).map lowerStr)
      ∧ isValidatorIn l a = isValidatorIn (resolveValidatorSet l) a
      ∧ (ValidPayload p →
          isValidatorOf l (xdcTag ++ p) = isValidatorOf l p
          ∧ isValidatorOf l (ethTag ++ p) = isValidatorOf l p) := by
  intro l a p
  refine ⟨?_, ?_, ?_, ?_, ?_⟩
  · rw [resolveValidatorSet, List.length_take, Nat.min_comm]
  · exact List.take_append_drop 108 l
  · rw [isValidatorIn, resolveValidatorSet, List.map_take]
    show (((l.map lowerStr).take 108).elem (lowerStr a) = true) ↔ _
    exact List.elem_iff
  · rw [isValidatorIn, isValidatorIn, resolveValidatorSet, List.map_take, List.take_take]
    norm_num
  · intro hp
    constructor
    · rw [isValidatorOf, isValidatorOf, (toEthAddress_forms hp).1, (toEthAddress_forms hp).2.2]
    · rw [isValidatorOf, isValidatorOf, (toEthAddress_forms hp).2.1, (toEthAddress_forms hp).2.2]

/-- Witness for the C3 theorem: a concrete candidate list and payload. -/
theorem validatorSet_spec_witness :
    ValidPayload (List.replicate 40 'd')
    ∧ isValidatorOf [ethTag ++ List.replicate 40 'd'] (xdcTag ++ List.replicate 40 'd') =
        isValidatorOf [ethTag ++ List.replicate 40 'd'] (List.replicate 40 'd') :=
  ⟨by decide,
   (validatorSet_spec [ethTag ++ List.replicate 40 'd'] [] (List.replicate 40 'd')).2.2.2.2
     (by decide) |>.1⟩

/-- C4 counterexample: the claim `toFormatB(toFormatA(p)) == toFormatA(p)`
fails as a string equation for every valid payload — translating the
`xdc` form with `toEthAddress` yields the `0x` form, a different string. -/
theorem roundTrip_counterexample :
    toXdcAddress (List.replicate 40 'a') = .ok (xdcTag ++ List.replicate 40 'a')
    ∧ toEthAddress (xdcTag ++ List.replicate 40 'a') = .ok (ethTag ++ List.replicate 40 'a')
    ∧ (ethTag ++ List.replicate 40 'a') ≠ (xdcTag ++ List.replicate 40 'a') :=
  ⟨rfl, rfl, by decide⟩

/-- C4 amended: for every valid 40-hex payload, translating to format A,
then to format B, and back to format A is lossless
(`toFormatA(toFormatB(toFormatA(p))) = toFormatA(p)`), and the payloads
decoded from the format-A and format-B results are the identical
lowercased 40-hex string — the two encodings carry the same identity. -/
theorem roundTrip_amended :
    ∀ p : List Char, ValidPayload p →
      toXdcAddress p = .ok (xdcTag ++ lowerStr p)
      ∧ (toXdcAddress p).bind toEthAddress = .ok (ethTag ++ lowerStr p)
      ∧ ((toXdcAddress p).bind toEthAddress).bind toXdcAddress = toXdcAddress p
      ∧ (xdcTag ++ lowerStr p).drop 3 = (ethTag ++ lowerStr p).drop 2 := by
  intro p hp
  have hlp := validPayload_lowerStr hp
  have hx := (toXdcAddress_forms hp).2.2
  have he : toEthAddress (xdcTag ++ lowerStr p) = .ok (ethTag ++ lowerStr (lowerStr p)) :=
    (toEthAddress_forms hlp).1
  rw [lowerStr_hex_idem hp.2] at he
  have hx2 : toXdcAddress (ethTag ++ lowerStr p) = .ok (xdcTag ++ lowerStr (lowerStr p)) :=
    (toXdcAddress_forms hlp).2.1
  rw [lowerStr_hex_idem hp.2] at hx2
  have d1 : (xdcTag ++ lowerStr p).drop 3 = lowerStr p := List.drop_left xdcTag (lowerStr p)
  have d2 : (ethTag ++ lowerStr p).drop 2 = lowerStr p := List.drop_left ethTag (lowerStr p)
  refine ⟨hx, ?_, ?_, by rw [d1, d2]⟩
  · rw [hx]
    exact he
  · rw [hx]
    show (toEthAddress (xdcTag ++ lowerStr p)).bind toXdcAddress = _
    rw [he]
    show toXdcAddress (ethTag ++ lowerStr p) = _
    rw [hx2]

/-- Witness for the C4 amended theorem at the payload of forty `b`s. -/
theorem roundTrip_amended_witness :
    ValidPayload (List.replicate 40 'b')
    ∧ (toXdcAddress (List.replicate 40 'b')).bind toEthAddress =
        .ok (ethTag ++ lowerStr (List.replicate 40 'b')) :=
  ⟨by decide, (roundTrip_amended (List.replicate 40 'b') (by decide)).2.1⟩

/-- C6: the reward estimator's zero-stake guard returns the all-zero
record for every stake, and for positive stake and positive total network
stake all four returned amounts are non-negative. -/
theorem calculateEstimatedRewards_guard_nonneg :
    (∀ (s : Int) (b : Nat), calculateEstimatedRewards s 0 b = ⟨0, 0, 0, ⟨0, 0⟩⟩)
    ∧ ∀ (s t : Int) (b : Nat), 0 < s → 0 < t →
        0 ≤ (calculateEstimatedRewards s t b).daily
        ∧ 0 ≤ (calculateEstimatedRewards s t b).monthly
        ∧ 0 ≤ (calculateEstimatedRewards s t b).yearly
        ∧ 0 ≤ fpToRat (calculateEstimatedRewards s t b).apy := by
  constructor
  · intro s b
    rfl
  · intro s t b hs ht
    have hyr : (0 : Int) ≤ (b : Int) * rewardPerBlock :=
      mul_nonneg (Int.natCast_nonneg b) (by decide)
    have hshare : 0 ≤ (fpDiv (jsNumber s) (jsNumber t)).m :=
      fpScaled_m_nonneg (fpOfFrac_m_nonneg hs.le one_pos) (fpOfFrac_m_pos ht one_pos)
    have hmain :
        0 ≤ fpFloor (fpMul (jsNumber ((b : Int) * rewardPerBlock))
          (fpDiv (jsNumber s) (jsNumber t))) := by
      apply fpFloor_nonneg
      exact fpScaled_m_nonneg
        (mul_nonneg (fpOfFrac_m_nonneg hyr one_pos) hshare) one_pos
    have happy :
        0 ≤ (fpMul (fpDiv (jsNumber (fpFloor (fpMul (jsNumber ((b : Int) * rewardPerBlock))
          (fpDiv (jsNumber s) (jsNumber t))))) (jsNumber s)) (jsNumber 100)).m := by
      apply fpScaled_m_nonneg _ one_pos
      apply mul_nonneg
      · exact fpScaled_m_nonneg (fpOfFrac_m_nonneg hmain one_pos) (fpOfFrac_m_pos hs one_pos)
      · exact fpOfFrac_m_nonneg (by norm_num) one_pos
    have hne : ¬(t = 0) := by omega
    simp only [calculateEstimatedRewards, if_neg hne]
    exact ⟨Int.tdiv_nonneg hmain (by norm_num), Int.tdiv_nonneg hmain (by norm_num),
      hmain, fpToRat_nonneg happy⟩

/-- Witness for the C6 theorem: zero guard at stake 7, and positive
inputs stake 2, total 5, one block per year. -/
theorem calculateEstimatedRewards_guard_nonneg_witness :
    calculateEstimatedRewards 7 0 3 = ⟨0, 0, 0, ⟨0, 0⟩⟩
    ∧ (0 : Int) < 2 ∧ (0 : Int) < 5
    ∧ 0 ≤ (calculateEstimatedRewards 2 5 1).yearly
    ∧ 0 ≤ fpToRat (calculateEstimatedRewards 2 5 1).apy :=
  ⟨calculateEstimatedRewards_guard_nonneg.1 7 3, by decide, by decide,
   (calculateEstimatedRewards_guard_nonneg.2 2 5 1 (by decide) (by decide)).2.2.1,
   (calculateEstimatedRewards_guard_nonneg.2 2 5 1 (by decide) (by decide)).2.2.2⟩

/-- A string starting with `xdc` does not start with `0x`. -/
lemma startsWith_xdc_not_eth {t : List Char} (h : listStartsWith t xdcTag = true) :
    listStartsWith t ethTag = false := by
  match t with
  | [] => exact absurd h (by decide)
  | a :: t' =>
    rw [show xdcTag = 'x' :: 'd' :: 'c' :: [] from rfl, listStartsWith_cons_cons,
      Bool.and_eq_true, beq_iff_eq] at h
    rw [show ethTag = '0' :: 'x' :: [] from rfl, listStartsWith_cons_cons, h.1,
      show (('x' : Char) == '0') = false from by decide, Bool.false_and]

/-- C7 counterexample: the claim states any tagged string whose remainder
is not 40 hex characters is rejected with `InvalidAddressFormat`; the code
accepts every `xdc`-tagged string without inspecting the remainder. -/
theorem toXdcAddress_accepts_nonhex :
    toXdcAddress ['x', 'd', 'c', 'z', 'z'] = .ok ['x', 'd', 'c', 'z', 'z'] := rfl

/-- C7 amended: acceptance is decided by tag and length only — the codec
accepts exactly the inputs whose lowercasing starts with `xdc` or `0x`
(whatever follows the tag) together with the bare inputs of length
exactly 40 (hex content unchecked); the empty input is rejected with the
distinct `required` error and everything else with `invalidFormat`. -/
theorem addressCodec_acceptance :
    ∀ s : List Char,
      (toXdcAddress s = .error .required ↔ s = [])
      ∧ (toEthAddress s = .error .required ↔ s = [])
      ∧ ((∃ r, toXdcAddress s = .ok r) ↔
          s ≠ [] ∧ (listStartsWith (lowerStr s) xdcTag = true
            ∨ listStartsWith (lowerStr s) ethTag = true ∨ s.length = 40))
      ∧ ((∃ r, toEthAddress s = .ok r) ↔
          s ≠ [] ∧ (listStartsWith (lowerStr s) xdcTag = true
            ∨ listStartsWith (lowerStr s) ethTag = true ∨ s.length = 40))
      ∧ (toXdcAddress s = .error .invalidFormat ↔
          s ≠ [] ∧ ¬(listStartsWith (lowerStr s) xdcTag = true
            ∨ listStartsWith (lowerStr s) ethTag = true ∨ s.length = 40))
      ∧ (toEthAddress s = .error .invalidFormat ↔
          s ≠ [] ∧ ¬(listStartsWith (lowerStr s) xdcTag = true
            ∨ listStartsWith (lowerStr s) ethTag = true ∨ s.length = 40)) := by
  intro s
  by_cases h0 : s = []
  · subst h0
    refine ⟨by simp [toXdcAddress], by simp [toEthAddress], ?_, ?_, ?_, ?_⟩ <;>
      simp [toXdcAddress, toEthAddress]
  · by_cases hx : listStartsWith (lowerStr s) xdcTag = true
    · have hx2 := startsWith_xdc_not_eth hx
      refine ⟨?_, ?_, ?_, ?_, ?_, ?_⟩ <;>
        simp [toXdcAddress, toEthAddress, h0, hx, hx2]
    · by_cases he : listStartsWith (lowerStr s) ethTag = true
      · refine ⟨?_, ?_, ?_, ?_, ?_, ?_⟩ <;>
          simp [toXdcAddress, toEthAddress, h0, hx, he]
      · by_cases hl : (lowerStr s).length = 40
        · have hl' : s.length = 40 := by rw [← lowerStr_length s]; exact hl
          refine ⟨?_, ?_, ?_, ?_, ?_, ?_⟩ <;>
            simp [toXdcAddress, toEthAddress, h0, hx, he, hl, hl']
        · have hl' : ¬(s.length = 40) := by rw [← lowerStr_length s]; exact hl
          refine ⟨?_, ?_, ?_, ?_, ?_, ?_⟩ <;>
            simp [toXdcAddress, toEthAddress, h0, hx, he, hl, hl']

/-- C9 counterexample: the claim states negative input to the unit
conversion is rejected with an `InvalidAmount` error; `toWei("-1", "xdc")`
is accepted and returns −10¹⁸ wei. -/
theorem toWei_accepts_negative :
    toWei ['-', '1'] ['x', 'd', 'c'] = .ok (-1000000000000000000) := rfl

/-- C9 amended: the conversion rejects non-numeric input (any string not
matching the signed decimal shape) with the invalid-number error, but does
not reject negative input: whenever a minus-signed string is accepted, the
produced wei value is simply non-positive. -/
theorem toWei_spec :
    (∀ s u : List Char, splitNumeric s = none → toWei s u = .error .invalidNumber)
    ∧ (∀ (s u w f : List Char) (v : Int),
        splitNumeric s = some (true, w, f) → toWei s u = .ok v → v ≤ 0) := by
  constructor
  · intro s u h
    unfold toWei
    split_ifs <;> simp [parseUnits, h]
  · intro s u w f v hsplit hok
    have hcore : ∀ d : Nat, parseUnits s d = .ok v → v ≤ 0 := by
      intro d hpd
      rw [parseUnits, hsplit] at hpd
      dsimp only at hpd
      split_ifs at hpd
      all_goals
        first
        | contradiction
        | (simp at hpd
           omega)
    unfold toWei at hok
    split_ifs at hok
    · exact hcore 18 hok
    · exact hcore _ hok

/-- Witness for the C9 amended theorem: `toWei("e", "xdc")` is rejected as
non-numeric, and the accepted `"-1"` yields a non-positive value. -/
theorem toWei_spec_witness :
    splitNumeric ['e'] = none
    ∧ toWei ['e'] ['x', 'd', 'c'] = .error .invalidNumber
    ∧ (-1000000000000000000 : Int) ≤ 0 :=
  ⟨by decide, toWei_spec.1 ['e'] ['x', 'd', 'c'] (by decide),
   toWei_spec.2 ['-', '1'] ['x', 'd', 'c'] ['1'] [] (-1000000000000000000)
     (by decide) toWei_accepts_negative⟩

/-- A valid operand of the equality test: an `xdc`-tagged, `0x`-tagged or
bare valid 40-hex payload. -/
def ValidOperand (a p : List Char) : Prop :=
  ValidPayload p ∧ (a = xdcTag ++ p ∨ a = ethTag ++ p ∨ a = p)

/-- C10: the address equality test is total — `false` on an empty operand
and on any operand the codec cannot translate — and on two valid operands
(in either encoding or bare form) it returns `true` exactly when the
lowercased 40-hex payloads coincide. -/
theorem addressesEqual_spec :
    (∀ a1 a2 : List Char, a1 = [] ∨ a2 = [] → addressesEqual a1 a2 = false)
    ∧ (∀ (a1 a2 : List Char) (e : AddressError),
        toEthAddress a1 = .error e ∨ toEthAddress a2 = .error e →
        addressesEqual a1 a2 = false)
    ∧ (∀ a1 a2 p1 p2 : List Char, ValidOperand a1 p1 → ValidOperand a2 p2 →
        (addressesEqual a1 a2 = true ↔ lowerStr p1 = lowerStr p2)) := by
  refine ⟨?_, ?_, ?_⟩
  · intro a1 a2 h
    unfold addressesEqual
    rw [if_pos h]
  · intro a1 a2 e h
    unfold addressesEqual
    split_ifs with h0
    · rfl
    · rcases h3 : toEthAddress a1 with e1 | v1 <;> rcases h4 : toEthAddress a2 with e2 | v2 <;>
        simp_all
  · intro a1 a2 p1 p2 h1 h2
    obtain ⟨hp1, hform1⟩ := h1
    obtain ⟨hp2, hform2⟩ := h2
    have he1 : toEthAddress a1 = .ok (ethTag ++ lowerStr p1) := by
      rcases hform1 with rfl | rfl | rfl
      exacts [(toEthAddress_forms hp1).1, (toEthAddress_forms hp1).2.1,
        (toEthAddress_forms hp1).2.2]
    have he2 : toEthAddress a2 = .ok (ethTag ++ lowerStr p2) := by
      rcases hform2 with rfl | rfl | rfl
      exacts [(toEthAddress_forms hp2).1, (toEthAddress_forms hp2).2.1,
        (toEthAddress_forms hp2).2.2]
    have hne1 : a1 ≠ [] := by
      rcases hform1 with rfl | rfl | rfl
      · simp [xdcTag]
      · simp [ethTag]
      · intro hh
        rw [hh] at hp1
        exact absurd hp1.1 (by decide)
    have hne2 : a2 ≠ [] := by
      rcases hform2 with rfl | rfl | rfl
      · simp [xdcTag]
      · simp [ethTag]
      · intro hh
        rw [hh] at hp2
        exact absurd hp2.1 (by decide)
    unfold addressesEqual
    rw [if_neg (by push_neg; exact ⟨hne1, hne2⟩)]
    simp only [he1, he2]
    rw [lowerStr_append, lowerStr_append, lowerStr_ethTag,
      lowerStr_hex_idem hp1.2, lowerStr_hex_idem hp2.2, beq_iff_eq]
    exact ⟨fun h => List.append_cancel_left h, fun h => by rw [h]⟩

/-- Witness for the C10 theorem: the `xdc` and `0x` taggings of the same
payload compare equal. -/
theorem addressesEqual_spec_witness :
    ValidOperand (xdcTag ++ List.replicate 40 'c') (List.replicate 40 'c')
    ∧ ValidOperand (ethTag ++ List.replicate 40 'c') (List.replicate 40 'c')
    ∧ addressesEqual (xdcTag ++ List.replicate 40 'c') (ethTag ++ List.replicate 40 'c') = true :=
  ⟨⟨by decide, Or.inl rfl⟩, ⟨by decide, Or.inr (Or.inl rfl)⟩,
   (addressesEqual_spec.2.2 (xdcTag ++ List.replicate 40 'c') (ethTag ++ List.replicate 40 'c')
     (List.replicate 40 'c') (List.replicate 40 'c')
     ⟨by decide, Or.inl rfl⟩ ⟨by decide, Or.inr (Or.inl rfl)⟩).mpr rfl⟩

